import Mathlib

/-!
# Verification of the ShinyApps cross-council reconciliation and metrics engine

Shallow embedding of the algorithmic core of the `mutlicouncil-staff`,
`mywcc-staff` and `myhcc-staff` dashboard apps: the Gini / Lorenz / Shannon
metric functions, the group-mapping tables and their inversion, the
staff-assignment loaders, the star-schema merges, the department-mapping
report builder, the fuzzy job-title matcher, and the HCC span-of-control
statistics.  Numeric code is modelled over `ℚ` (exact rational arithmetic;
a division whose denominator is zero in the Python/numpy original is
modelled as `Option.none`), and the Shannon entropy over `ℝ` with
`Real.log`.
-/

namespace ShinyApps

/-! ## Metrics Engine: Gini coefficient

Embeds `calculate_gini` (mutlicouncil-staff/app.py, lines 615-622):

```python
def calculate_gini(values):
    if len(values) == 0:
        return 0
    sorted_values = sorted(values)
    n = len(values)
    cumsum = np.cumsum(sorted_values)
    return (2 * np.sum((i + 1) * sorted_values[i] for i in range(n))) / (n * cumsum[-1]) - (n + 1) / n
```

`cumsum[-1]` is the total `Σ x_i`.  When `n * cumsum[-1] == 0` (a non-empty
all-zero input) the Python code performs an unguarded `0/0` division (NaN
under numpy semantics); this is modelled as `none`.
-/

/-- Ascending sort, as Python's `sorted` / pandas `sort_values`. -/
def sortAsc (l : List ℚ) : List ℚ := List.insertionSort (· ≤ ·) l

/-- `Σ_{i=0..n-1} (i+1) * sorted[i]`, the 1-based rank-weighted sum from the
generator expression `np.sum((i + 1) * sorted_values[i] for i in range(n))`. -/
def weightedRankSum (l : List ℚ) : ℚ :=
  ∑ i ∈ Finset.range l.length, ((i : ℚ) + 1) * l.getD i 0

/-- `calculate_gini`.  `none` models the unguarded division by
`n * cumsum[-1] = 0` on a non-empty all-zero input. -/
def calculate_gini (values : List ℚ) : Option ℚ :=
  if values.length = 0 then some 0
  else if (values.length : ℚ) * (sortAsc values).sum = 0 then none
  else some ((2 * weightedRankSum (sortAsc values)) /
      ((values.length : ℚ) * (sortAsc values).sum)
    - ((values.length : ℚ) + 1) / (values.length : ℚ))

/-! ### Basic facts about `sortAsc` and `weightedRankSum` -/

theorem sortAsc_perm (l : List ℚ) : List.Perm (sortAsc l) l :=
  List.perm_insertionSort _ l

theorem sortAsc_sorted (l : List ℚ) : (sortAsc l).Sorted (· ≤ ·) :=
  List.sorted_insertionSort _ l

theorem sortAsc_length (l : List ℚ) : (sortAsc l).length = l.length :=
  (sortAsc_perm l).length_eq

theorem sortAsc_sum (l : List ℚ) : (sortAsc l).sum = l.sum :=
  (sortAsc_perm l).sum_eq

theorem sortAsc_mem (l : List ℚ) {x : ℚ} (h : x ∈ sortAsc l) : x ∈ l :=
  ((sortAsc_perm l).mem_iff).1 h

/-- A list's sum, written as a `Finset.range` sum over `getD`. -/
theorem list_sum_eq_range_getD (l : List ℚ) :
    l.sum = ∑ i ∈ Finset.range l.length, l.getD i 0 := by
  induction l with
  | nil => simp
  | cons a t ih =>
    rw [List.sum_cons, List.length_cons, Finset.sum_range_succ', ih]
    simp [add_comm]

/-- In a `≤`-sorted list, `getD` is monotone below the length. -/
theorem sorted_getD_mono {l : List ℚ} (hs : l.Sorted (· ≤ ·)) {i j : ℕ}
    (hij : i ≤ j) (hj : j < l.length) : l.getD i 0 ≤ l.getD j 0 := by
  rcases eq_or_lt_of_le hij with rfl | hlt
  · exact le_refl _
  · have hi : i < l.length := lt_trans hlt hj
    rw [List.getD_eq_get _ _ hi, List.getD_eq_get _ _ hj]
    exact hs.rel_get_of_lt (by simpa using hlt)

/-- Gauss sum over ℚ: `Σ_{i<n} (i+1) = n(n+1)/2`. -/
theorem sum_range_cast_add_one (n : ℕ) :
    ∑ i ∈ Finset.range n, ((i : ℚ) + 1) = (n : ℚ) * ((n : ℚ) + 1) / 2 := by
  induction n with
  | zero => simp
  | succ m ih =>
    rw [Finset.sum_range_succ, ih]
    push_cast
    ring

/-- Chebyshev's sum inequality, specialised to the rank-weighted sum of a
sorted list: `(n+1)·Σx ≤ 2·Σ (i+1)·x_i`. -/
theorem chebyshev_lower {l : List ℚ} (hs : l.Sorted (· ≤ ·)) :
    ((l.length : ℚ) + 1) * l.sum ≤ 2 * weightedRankSum l := by
  rcases Nat.eq_zero_or_pos l.length with h0 | hn
  · rw [List.length_eq_zero.1 h0]
    simp [weightedRankSum]
  · have hmono : MonovaryOn (fun i => l.getD i 0) (fun i : ℕ => (i : ℚ) + 1)
        ↑(Finset.range l.length) := by
      intro i hi j hj hg
      have hg' : (i : ℚ) + 1 < (j : ℚ) + 1 := hg
      have hj' : j < l.length := by simpa using hj
      have hij : i ≤ j := by
        have : (i : ℚ) < (j : ℚ) := by linarith
        exact_mod_cast le_of_lt this
      exact sorted_getD_mono hs hij hj'
    have key := hmono.sum_mul_sum_le_card_mul_sum
    rw [← list_sum_eq_range_getD, sum_range_cast_add_one, Finset.card_range] at key
    have hw : ∑ i ∈ Finset.range l.length, l.getD i 0 * ((i : ℚ) + 1)
        = weightedRankSum l := by
      unfold weightedRankSum
      exact Finset.sum_congr rfl fun i _ => mul_comm _ _
    rw [hw] at key
    have hnQ : (0 : ℚ) < (l.length : ℚ) := by exact_mod_cast hn
    nlinarith [key]

/-- Each rank weight `(i+1)` is at most `n`, so for nonnegative entries
`Σ (i+1)·x_i ≤ n·Σx`. -/
theorem weightedRankSum_le {l : List ℚ} (hnn : ∀ x ∈ l, 0 ≤ x) :
    weightedRankSum l ≤ (l.length : ℚ) * l.sum := by
  rw [list_sum_eq_range_getD, Finset.mul_sum]
  unfold weightedRankSum
  refine Finset.sum_le_sum fun i hi => ?_
  have hi' : i < l.length := Finset.mem_range.1 hi
  have hx : 0 ≤ l.getD i 0 := by
    rw [List.getD_eq_get _ _ hi']
    exact hnn _ (List.get_mem _ _ _)
  have hcoef : ((i : ℚ) + 1) ≤ (l.length : ℚ) := by exact_mod_cast hi'
  exact mul_le_mul_of_nonneg_right hcoef hx

/-- The rank-weighted sum of a constant list. -/
theorem weightedRankSum_const {l : List ℚ} {c : ℚ} (h : ∀ x ∈ l, x = c) :
    weightedRankSum l = c * ((l.length : ℚ) * ((l.length : ℚ) + 1) / 2) := by
  unfold weightedRankSum
  have hstep : ∀ i ∈ Finset.range l.length,
      ((i : ℚ) + 1) * l.getD i 0 = ((i : ℚ) + 1) * c := by
    intro i hi
    have hi' : i < l.length := Finset.mem_range.1 hi
    rw [List.getD_eq_get _ _ hi', h _ (List.get_mem _ _ _)]
  rw [Finset.sum_congr rfl hstep, ← Finset.sum_mul, sum_range_cast_add_one]
  ring

/-- C1: `calculate_gini` guards the empty input (returning the sentinel 0)
but not the non-empty all-zero input: there `n * cumsum[-1] = 0` and the
division is unguarded (NaN under numpy), modelled as `none`. -/
theorem gini_degenerate_guard :
    calculate_gini [] = some 0 ∧ calculate_gini [0] = none := by
  refine ⟨rfl, ?_⟩
  norm_num [calculate_gini, sortAsc, List.insertionSort, List.orderedInsert]

/-- C8: on a non-empty list of non-negative values with at least one positive
value, `calculate_gini` returns exactly
`(2·Σ(i+1)·x_i)/(n·Σx) − (n+1)/n` over the ascending sort, the result lies
in `[0, 1)`, and it is `0` when all elements are equal. -/
theorem gini_formula_range (l : List ℚ) (hne : l ≠ [])
    (hnn : ∀ x ∈ l, 0 ≤ x) (hpos : ∃ x ∈ l, 0 < x) :
    ∃ g, calculate_gini l = some g ∧
      g = (2 * weightedRankSum (sortAsc l)) / ((l.length : ℚ) * l.sum)
          - ((l.length : ℚ) + 1) / (l.length : ℚ) ∧
      0 ≤ g ∧ g < 1 ∧ ((∀ x ∈ l, ∀ y ∈ l, x = y) → g = 0) := by
  obtain ⟨x, hxl, hxpos⟩ := hpos
  have hS : 0 < l.sum := lt_of_lt_of_le hxpos (List.single_le_sum hnn x hxl)
  have hn : 0 < l.length := List.length_pos.2 hne
  have hnQ : (0 : ℚ) < (l.length : ℚ) := by exact_mod_cast hn
  have hD : (0 : ℚ) < (l.length : ℚ) * l.sum := mul_pos hnQ hS
  have heval : calculate_gini l =
      some ((2 * weightedRankSum (sortAsc l)) / ((l.length : ℚ) * l.sum)
        - ((l.length : ℚ) + 1) / (l.length : ℚ)) := by
    unfold calculate_gini
    rw [sortAsc_sum, if_neg (Nat.pos_iff_ne_zero.1 hn), if_neg (ne_of_gt hD)]
  refine ⟨_, heval, rfl, ?_, ?_, ?_⟩
  · -- lower bound, via Chebyshev on the sorted list
    have hcheb := chebyshev_lower (sortAsc_sorted l)
    rw [sortAsc_length, sortAsc_sum] at hcheb
    have hfrac : ((l.length : ℚ) + 1) / (l.length : ℚ)
        = (((l.length : ℚ) + 1) * l.sum) / ((l.length : ℚ) * l.sum) := by
      rw [mul_div_mul_right _ _ (ne_of_gt hS)]
    rw [sub_nonneg, hfrac]
    exact (div_le_div_right hD).2 hcheb
  · -- upper bound
    have hnn' : ∀ y ∈ sortAsc l, 0 ≤ y := fun y hy => hnn y (sortAsc_mem l hy)
    have hW := weightedRankSum_le hnn'
    rw [sortAsc_length, sortAsc_sum] at hW
    have h2 : 2 * weightedRankSum (sortAsc l) / ((l.length : ℚ) * l.sum) ≤ 2 := by
      rw [div_le_iff hD]
      linarith
    have h3 : 1 < ((l.length : ℚ) + 1) / (l.length : ℚ) := by
      rw [lt_div_iff hnQ]
      linarith
    linarith
  · -- all elements equal → gini 0
    intro hall
    have hxc : ∀ y ∈ l, y = x := fun y hy => hall y hy x hxl
    have hsum : l.sum = (l.length : ℚ) * x := by
      rw [List.sum_eq_card_nsmul l x hxc, nsmul_eq_mul]
    have hconst : ∀ y ∈ sortAsc l, y = x := fun y hy => hxc y (sortAsc_mem l hy)
    rw [weightedRankSum_const hconst, sortAsc_length, hsum]
    field_simp
    ring

/-- Witness for C8 at the concrete input `[1, 2, 3]`. -/
theorem gini_formula_range_witness :
    ∃ g, calculate_gini [1, 2, 3] = some g ∧ 0 ≤ g ∧ g < 1 := by
  obtain ⟨g, h1, _, h3, h4, _⟩ :=
    gini_formula_range [1, 2, 3] (by decide) (by decide) ⟨1, by decide, by decide⟩
  exact ⟨g, h1, h3, h4⟩

/-! ## Metrics Engine: Lorenz curve coordinates

Embeds `location_concentration` (mutlicouncil-staff/app.py, lines 1624-1627)
and the identical `concentration_chart` (mywcc-staff/app.py, lines 648-651):

```python
location_totals = data.groupby('LocationName')['StaffCount'].sum().sort_values()
cumsum = location_totals.cumsum() / location_totals.sum()
x = np.arange(len(location_totals)) / len(location_totals)
```

The plotted pairs are `(x[i], cumsum[i]) = (i/n, (Σ_{j≤i} x_j)/Σx)` for
`i = 0..n-1`; `values` is the grouped-totals distribution. -/

/-- The Lorenz coordinates the code actually draws: `n` points
`((i)/n, cumsum_{i+1}/Σx)` for `i = 0..n-1`. -/
def lorenz_points (values : List ℚ) : List (ℚ × ℚ) :=
  (List.range (sortAsc values).length).map fun (i : ℕ) =>
    ((i : ℚ) / ((sortAsc values).length : ℚ),
     ((sortAsc values).take (i + 1)).sum / (sortAsc values).sum)

/-- Modelled from the spec's words (§4.3) for the refinement comparison:
pairs `(i/n, cumsum(x)_i / Σx)` for `i = 0..n`, including the `(0,0)`
origin point. -/
def lorenz_points_spec (values : List ℚ) : List (ℚ × ℚ) :=
  (List.range ((sortAsc values).length + 1)).map fun (i : ℕ) =>
    ((i : ℚ) / ((sortAsc values).length : ℚ),
     ((sortAsc values).take i).sum / (sortAsc values).sum)

/-- C6 counterexample: at the distribution `[1, 1]` the code emits the two
points `(0, 1/2), (1/2, 1)`, not the spec's three points
`(0,0), (1/2, 1/2), (1, 1)`; in particular the `(0,0)` origin is absent. -/
theorem lorenz_points_counterexample :
    lorenz_points [1, 1] = [(0, 1/2), (1/2, 1)] ∧
    lorenz_points_spec [1, 1] = [(0, 0), (1/2, 1/2), (1, 1)] ∧
    ((0 : ℚ), (0 : ℚ)) ∉ lorenz_points [1, 1] := by
  have h1 : lorenz_points [1, 1] = [(0, 1/2), (1/2, 1)] := by
    norm_num [lorenz_points, sortAsc, List.insertionSort, List.orderedInsert,
      List.range_succ]
  have h2 : lorenz_points_spec [1, 1] = [(0, 0), (1/2, 1/2), (1, 1)] := by
    norm_num [lorenz_points_spec, sortAsc, List.insertionSort, List.orderedInsert,
      List.range_succ]
  refine ⟨h1, h2, ?_⟩
  rw [h1]
  norm_num [Prod.ext_iff]

/-- C6 amended: the code's Lorenz points number `n` (not `n+1`): the i-th
point is `((i)/n, cumsum_{i+1}/Σx)`, the origin `(0,0)` never occurs for a
positive distribution, and the final cumulative coordinate is exactly `1`
whenever `Σx > 0`. -/
theorem lorenz_points_correct (values : List ℚ) (hne : values ≠ [])
    (hpos : 0 < values.sum) :
    (lorenz_points values).length = values.length ∧
    ((lorenz_points values).map Prod.snd).getLast? = some 1 ∧
    ((∀ x ∈ values, 0 < x) → ((0 : ℚ), (0 : ℚ)) ∉ lorenz_points values) := by
  have hlen : (sortAsc values).length = values.length := sortAsc_length values
  have hsum : (sortAsc values).sum = values.sum := sortAsc_sum values
  obtain ⟨m, hm⟩ : ∃ m, (sortAsc values).length = m + 1 := by
    have : 0 < (sortAsc values).length := by
      rw [hlen]
      exact List.length_pos.2 hne
    exact ⟨(sortAsc values).length - 1, (Nat.succ_pred_eq_of_pos this).symm⟩
  refine ⟨by simp [lorenz_points, hlen], ?_, ?_⟩
  · -- final cumulative coordinate is 1
    rw [lorenz_points, List.map_map, hm, List.range_succ, List.map_append]
    simp only [List.map_cons, List.map_nil]
    rw [List.getLast?_concat]
    have htake : (sortAsc values).take (m + 1) = sortAsc values := by
      rw [← hm]
      exact List.take_length _
    simp only [Function.comp_apply, htake, hsum]
    rw [div_self (ne_of_gt hpos)]
  · -- the origin is never among the plotted points
    intro hall hmem
    rw [lorenz_points, List.mem_map] at hmem
    obtain ⟨i, hi, hpt⟩ := hmem
    have hy : ((sortAsc values).take (i + 1)).sum / (sortAsc values).sum = 0 :=
      congrArg Prod.snd hpt
    have hi' : i < (sortAsc values).length := List.mem_range.1 hi
    have htne : (sortAsc values).take (i + 1) ≠ [] := by
      apply List.ne_nil_of_length_pos
      rw [List.length_take]
      exact lt_min (Nat.succ_pos i) (Nat.lt_of_le_of_lt (Nat.zero_le i) hi')
    have htpos : 0 < ((sortAsc values).take (i + 1)).sum := by
      apply List.sum_pos
      · intro x hx
        exact hall x (sortAsc_mem values (List.take_subset _ _ hx))
      · exact htne
    have : 0 < ((sortAsc values).take (i + 1)).sum / (sortAsc values).sum := by
      rw [hsum]
      exact div_pos htpos hpos
    rw [hsum] at hy
    rw [hsum] at this
    exact absurd hy (ne_of_gt this)

/-- Witness for C6 at the concrete input `[1, 1]`. -/
theorem lorenz_points_correct_witness :
    (lorenz_points [1, 1]).length = 2 ∧
    ((lorenz_points [1, 1]).map Prod.snd).getLast? = some 1 := by
  obtain ⟨h1, h2, _⟩ := lorenz_points_correct [1, 1] (by decide) (by norm_num)
  exact ⟨h1, h2⟩

/-! ## Metrics Engine: Shannon diversity

Embeds the job-diversity block of `job_stats`
(mutlicouncil-staff/app.py, lines 1131-1136):

```python
job_counts = data.groupby('JobTitle')['StaffCount'].sum()
job_probs = job_counts / job_counts.sum()
diversity_index = -np.sum(job_probs * np.log(job_probs + 1e-10))
max_diversity = np.log(len(job_counts))
diversity_pct = (diversity_index / max_diversity * 100) if max_diversity > 0 else 0
```

`counts` is the grouped per-title staff-count distribution.  Real-valued;
`np.log(0) = -inf` and `Real.log 0 = 0` agree on the guard `max_diversity > 0`
(both reject `n ≤ 1`). -/

/-- The `1e-10` epsilon guard inside the logarithm. -/
noncomputable def epsGuard : ℝ := 1 / 10 ^ 10

/-- `diversity_index`: `H = -Σ p_i · ln(p_i + 1e-10)` with `p_i = x_i / Σx`. -/
noncomputable def shannon_H (counts : List ℝ) : ℝ :=
  -((counts.map fun c => c / counts.sum * Real.log (c / counts.sum + epsGuard)).sum)

/-- `diversity_pct`: `H / ln n * 100`, or `0` when `ln n ≤ 0` (i.e. `n ≤ 1`). -/
noncomputable def diversity_pct (counts : List ℝ) : ℝ :=
  if 0 < Real.log counts.length then shannon_H counts / Real.log counts.length * 100
  else 0

theorem log_four_gt_one : (1 : ℝ) < Real.log 4 := by
  have h1 : Real.exp 1 < 4 :=
    lt_trans Real.exp_one_lt_d9 (by norm_num)
  have := Real.log_lt_log (Real.exp_pos 1) h1
  rwa [Real.log_exp] at this

theorem shannon_H_four_eval :
    shannon_H [5, 5, 5, 5] = -Real.log (1 / 4 + epsGuard) := by
  have hsum : ([5, 5, 5, 5] : List ℝ).sum = 20 := by norm_num
  simp only [shannon_H, hsum, List.map_cons, List.map_nil, List.sum_cons,
    List.sum_nil]
  norm_num
  ring

theorem log_quarter_eps_lt : Real.log (1 / 4) < Real.log (1 / 4 + epsGuard) := by
  apply Real.log_lt_log (by norm_num)
  rw [epsGuard]
  norm_num

theorem log_quarter_eps_le : Real.log (1 / 4 + epsGuard) ≤ Real.log (1 / 4) + 4 * epsGuard := by
  have hx : (0 : ℝ) < (1 / 4 + epsGuard) / (1 / 4) := by
    rw [epsGuard]; norm_num
  have hlog := Real.log_le_sub_one_of_pos hx
  have hdiv : Real.log ((1 / 4 + epsGuard) / (1 / 4))
      = Real.log (1 / 4 + epsGuard) - Real.log (1 / 4) := by
    apply Real.log_div
    · rw [epsGuard]; norm_num
    · norm_num
  rw [hdiv] at hlog
  have harith : (1 / 4 + epsGuard) / (1 / 4) - 1 = 4 * epsGuard := by
    rw [epsGuard]; norm_num
  rw [harith] at hlog
  linarith

theorem log_quarter_neg : Real.log (1 / 4) = -Real.log 4 := by
  rw [one_div, Real.log_inv]

theorem diversity_pct_four_lt : diversity_pct [5, 5, 5, 5] < 100 := by
  have hlog4 : (0 : ℝ) < Real.log 4 := lt_trans one_pos log_four_gt_one
  have hlen : Real.log (([5, 5, 5, 5] : List ℝ).length : ℝ) = Real.log 4 := by
    norm_num
  have hH : shannon_H [5, 5, 5, 5] < Real.log 4 := by
    rw [shannon_H_four_eval]
    have := log_quarter_eps_lt
    rw [log_quarter_neg] at this
    linarith
  rw [diversity_pct, hlen, if_pos hlog4]
  calc shannon_H [5, 5, 5, 5] / Real.log 4 * 100
      < Real.log 4 / Real.log 4 * 100 := by
        apply mul_lt_mul_of_pos_right _ (by norm_num)
        exact (div_lt_div_right hlog4).2 hH
    _ = 100 := by rw [div_self (ne_of_gt hlog4), one_mul]

/-- C9 counterexample: four equal categories `[5,5,5,5]` do NOT yield
`diversityPct == 100`: the `1e-10` epsilon inside the logarithm makes
`H` strictly smaller than `ln 4`, so the percentage is strictly below 100. -/
theorem diversity_pct_counterexample : diversity_pct [5, 5, 5, 5] ≠ 100 :=
  ne_of_lt diversity_pct_four_lt

/-- C9 amended: `diversityPct` is `0` for distributions with at most one
category (including `[10]`), and for four equal categories `[5,5,5,5]` it is
strictly between `100 − 10⁻⁶` and `100` — within floating tolerance of 100
but not equal to it. -/
theorem diversity_pct_amended :
    (∀ counts : List ℝ, counts.length ≤ 1 → diversity_pct counts = 0) ∧
    diversity_pct [10] = 0 ∧
    100 - 1 / 1000000 < diversity_pct [5, 5, 5, 5] ∧
    diversity_pct [5, 5, 5, 5] < 100 := by
  have hguard : ∀ counts : List ℝ, counts.length ≤ 1 → diversity_pct counts = 0 := by
    intro counts h
    interval_cases hl : counts.length
    · rw [diversity_pct, hl]
      norm_num
    · rw [diversity_pct, hl]
      norm_num
  refine ⟨hguard, hguard [10] (by norm_num), ?_, diversity_pct_four_lt⟩
  have hlog4 : (0 : ℝ) < Real.log 4 := lt_trans one_pos log_four_gt_one
  have hlen : Real.log (([5, 5, 5, 5] : List ℝ).length : ℝ) = Real.log 4 := by
    norm_num
  have hHge : Real.log 4 - 4 * epsGuard ≤ shannon_H [5, 5, 5, 5] := by
    rw [shannon_H_four_eval]
    have := log_quarter_eps_le
    rw [log_quarter_neg] at this
    linarith
  rw [diversity_pct, hlen, if_pos hlog4]
  have heps : (0 : ℝ) < epsGuard := by rw [epsGuard]; norm_num
  have hkey : (100 - 1 / 1000000) * Real.log 4 < shannon_H [5, 5, 5, 5] * 100 := by
    have h1 : (100 - 1 / 1000000) * Real.log 4
        < 100 * Real.log 4 - 400 * epsGuard := by
      have h2 : 400 * epsGuard < (1 / 1000000) * Real.log 4 := by
        have : (400 : ℝ) * epsGuard < 1 / 1000000 * 1 := by
          rw [epsGuard]; norm_num
        have h3 := mul_lt_mul_of_pos_left log_four_gt_one
          (show (0:ℝ) < 1 / 1000000 by norm_num)
        linarith
      nlinarith [hlog4]
    nlinarith [hHge]
  rw [div_mul_eq_mul_div, lt_div_iff hlog4]
  exact hkey

/-- Witness for C9's `n ≤ 1` guard at the concrete input `[7]`. -/
theorem diversity_pct_amended_witness : diversity_pct [7] = 0 :=
  diversity_pct_amended.1 [7] (by norm_num)

/-! ## Taxonomy Mapper: GROUP_MAPPINGS and its inversion

Embeds the module-level tables of mutlicouncil-staff/app.py, lines 19-30:

```python
GROUP_MAPPINGS = {
    "Economy & Development": "Economic & Engagement",
    "Environment & Sustainability": "Planning & Environment",
    "Neighbourhoods & Communities": "Customer & Community",
    "Neighbourhoods & Communities ": "Customer & Community",  # Handle trailing space
    "Office of the Chief Executive": "Chief Executives Office",
    "Strategy & Engagement": "Strategy & Finance"
}
REVERSE_GROUP_MAPPINGS = {v: k for k, v in GROUP_MAPPINGS.items()}
```

A Python dict is modelled as an association list in insertion order whose
keys are unique; inserting an existing key overwrites its value in place
(the semantics of the dict comprehension building the reverse table). -/

/-- Python-dict insertion: overwrite the value at an existing key in place,
else append. -/
def dictInsert (d : List (String × String)) (k v : String) : List (String × String) :=
  if d.any fun p => p.1 = k then d.map fun p => if p.1 = k then (k, v) else p
  else d ++ [(k, v)]

/-- Build a Python dict from a pair sequence, later pairs overwriting. -/
def dictOfPairs (ps : List (String × String)) : List (String × String) :=
  ps.foldl (fun d p => dictInsert d p.1 p.2) []

/-- Dict lookup (keys are unique, so the first hit is the binding). -/
def dictLookup (d : List (String × String)) (k : String) : Option String :=
  (d.find? fun p => p.1 = k).map Prod.snd

/-- The authored HCC→WCC group mapping, in table order. -/
def GROUP_MAPPINGS : List (String × String) := [
  ("Economy & Development", "Economic & Engagement"),
  ("Environment & Sustainability", "Planning & Environment"),
  ("Neighbourhoods & Communities", "Customer & Community"),
  ("Neighbourhoods & Communities ", "Customer & Community"),
  ("Office of the Chief Executive", "Chief Executives Office"),
  ("Strategy & Engagement", "Strategy & Finance")]

/-- `REVERSE_GROUP_MAPPINGS = {v: k for k, v in GROUP_MAPPINGS.items()}`. -/
def REVERSE_GROUP_MAPPINGS : List (String × String) :=
  dictOfPairs (GROUP_MAPPINGS.map fun p => (p.2, p.1))

/-- C3 counterexample: the collision target "Customer & Community" reverses
to "Neighbourhoods & Communities " (trailing space) — the LAST colliding
source in table order, because the dict comprehension silently overwrites —
not the first-in-table-order value "Neighbourhoods & Communities" the claim
requires. -/
theorem reverse_mapping_counterexample :
    dictLookup REVERSE_GROUP_MAPPINGS "Customer & Community"
      = some "Neighbourhoods & Communities " ∧
    (GROUP_MAPPINGS.find? fun p => p.2 = "Customer & Community")
      = some ("Neighbourhoods & Communities", "Customer & Community") ∧
    dictLookup REVERSE_GROUP_MAPPINGS "Customer & Community"
      ≠ some "Neighbourhoods & Communities" := by
  refine ⟨by decide, by decide, by decide⟩

/-- C3 amended: for every explicit pair `(a → b)` in `GROUP_MAPPINGS`,
reverse-lookup of `b` recovers `a`, except at the single collision target
"Customer & Community", where the comprehension's silent overwrite makes
the tie-break LAST-wins in table order: the recovered value is
"Neighbourhoods & Communities " (with trailing space). -/
theorem reverse_mapping_last_wins :
    ∀ p ∈ GROUP_MAPPINGS,
      dictLookup REVERSE_GROUP_MAPPINGS p.2 =
        some (if p.2 = "Customer & Community"
          then "Neighbourhoods & Communities " else p.1) := by
  decide

/-- Witness for C3 at the concrete pair
`("Economy & Development", "Economic & Engagement")`. -/
theorem reverse_mapping_last_wins_witness :
    dictLookup REVERSE_GROUP_MAPPINGS "Economic & Engagement"
      = some "Economy & Development" := by
  have h := reverse_mapping_last_wins
    ("Economy & Development", "Economic & Engagement") (by decide)
  rwa [if_neg (by decide)] at h

/-! ## Schema Normalizer: loading the optional staff-assignments table

Embeds `staff_assignments` of mutlicouncil-staff/app.py (lines 661-687):
on a read failure it does NOT return an empty record set when the dimension
tables are available — it fabricates random synthetic assignments — and
returns the empty set only when they are not.  Embeds also
`staff_assignments` of mywcc-staff/app.py (lines 279-281), a bare
`pd.read_csv` whose failure propagates as a raised error.  The synthetic
rows are np.random draws; only the branch outcome is modelled. -/

/-- Outcome of loading the multicouncil staff-assignments table. -/
inductive SAResult (α : Type) where
  | loaded (rows : List α)
  | synthetic
  | empty
deriving DecidableEq

/-- mutlicouncil-staff `staff_assignments`: `try: read_csv ... except:` build
dummy data if both `business_units()` and `job_titles()` are non-empty,
else fall through to an empty frame. -/
def staff_assignments_multi {α : Type} (file : Option (List α))
    (unitsEmpty jobsEmpty : Bool) : SAResult α :=
  match file with
  | some rows => .loaded rows
  | none => if !unitsEmpty && !jobsEmpty then .synthetic else .empty

/-- mywcc-staff `staff_assignments`: a bare `pd.read_csv` — a missing file
raises. -/
def staff_assignments_wcc {α : Type} (file : Option (List α)) :
    Except String (List α) :=
  match file with
  | some rows => .ok rows
  | none => .error "FileNotFoundError"

/-- C2 counterexample: with the staff-assignments file absent and both
dimension tables non-empty, the multicouncil loader substitutes synthetic
data (not an empty record set); the mywcc loader propagates a raised error. -/
theorem staff_assignments_counterexample :
    staff_assignments_multi (α := Nat) none false false ≠ SAResult.empty ∧
    staff_assignments_multi (α := Nat) none false false = SAResult.synthetic ∧
    staff_assignments_wcc (α := Nat) none = Except.error "FileNotFoundError" :=
  ⟨by decide, rfl, rfl⟩

/-- C2 amended: a present file loads as-is; an absent file yields synthetic
substitute data in the multicouncil app when both dimension tables are
non-empty and an empty record set only otherwise; in the mywcc app an
absent file propagates as a thrown error, not as zero records. -/
theorem staff_assignments_amended :
    (∀ (rows : List Nat) (u j : Bool),
      staff_assignments_multi (some rows) u j = SAResult.loaded rows) ∧
    (∀ u j : Bool, staff_assignments_multi (α := Nat) none u j =
      if !u && !j then SAResult.synthetic else SAResult.empty) ∧
    (∀ rows : List Nat, staff_assignments_wcc (some rows) = Except.ok rows) ∧
    staff_assignments_wcc (α := Nat) none = Except.error "FileNotFoundError" :=
  ⟨fun _ _ _ => rfl, fun _ _ => rfl, fun _ => rfl, rfl⟩

/-! ## Reconciliation Report Builder: `department_mapping`

Embeds `department_mapping` (mutlicouncil-staff/app.py, lines 2382-2439):
one row per `GROUP_MAPPINGS` entry (`Match Quality` = 'Direct' unless the
target is 'No Direct Equivalent', then 'None'), plus one row per WCC group
not among the mapped targets (`HCC Group` = 'No Equivalent',
`Match Quality` = 'WCC Only', HCC staff 0), finally
`df.sort_values(['Match Quality', 'Staff Difference'])` — ascending on both
keys.  HCC groups absent from the mapping table contribute no row at all.
`hccStaff`/`wccStaff` are the `groupby('...')['StaffCount'].sum()` dicts,
modelled as association lists with unique keys in iteration order. -/

/-- One row of the department-mapping grid. -/
structure MappingRow where
  hccGroup : String
  hccStaff : Int
  wccEquiv : String
  wccStaff : Int
  matchQuality : String
  staffDiff : Int
deriving DecidableEq

/-- The `sort_values(['Match Quality', 'Staff Difference'])` key: ascending
match quality (lexicographic on the character sequence, as pandas compares
strings), then ascending staff difference. -/
def rowKey (r : MappingRow) : Lex (List Char × ℤ) :=
  toLex (r.matchQuality.toList, r.staffDiff)

/-- The sort order of the report grid. -/
def rowLE (a b : MappingRow) : Prop := rowKey a ≤ rowKey b

instance : DecidableRel rowLE := fun a b =>
  inferInstanceAs (Decidable (_ ≤ _))

instance : IsTotal MappingRow rowLE :=
  ⟨fun a b => le_total (rowKey a) (rowKey b)⟩

instance : IsTrans MappingRow rowLE :=
  ⟨fun _ _ _ => le_trans⟩

/-- The rows built by the `for hcc_group, wcc_group in GROUP_MAPPINGS.items()`
loop. -/
def baseRows (mappings : List (String × String))
    (hccStaff wccStaff : List (String × Int)) : List MappingRow :=
  mappings.map fun p =>
    let hc := (hccStaff.lookup p.1).getD 0
    let wc := (wccStaff.lookup p.2).getD 0
    ⟨p.1, hc, p.2, wc,
      if p.2 ≠ "No Direct Equivalent" then "Direct" else "None", |hc - wc|⟩

/-- The rows added for WCC groups without an HCC equivalent. -/
def wccOnlyRows (mappings : List (String × String))
    (wccStaff : List (String × Int)) : List MappingRow :=
  (wccStaff.filter fun q =>
      !((mappings.map Prod.snd).contains q.1) && q.1 != "No Direct Equivalent").map
    fun q => ⟨"No Equivalent", 0, q.1, q.2, "WCC Only", q.2⟩

/-- `department_mapping`, parametric in the mapping table and the two staff
dicts. -/
def department_mapping (mappings : List (String × String))
    (hccStaff wccStaff : List (String × Int)) : List MappingRow :=
  List.insertionSort rowLE (baseRows mappings hccStaff wccStaff ++
    wccOnlyRows mappings wccStaff)

/-- C4 counterexample, on the spec's own §8 scenario
(org A = {Transport: 100, Parks: 50}, mapping Transport→Infrastructure,
org B = {Infrastructure: 80}): the report contains exactly one record — the
Transport row — and NO record for the source-only group Parks; moreover the
sort is ascending in staff difference, so the worst mismatch appears last,
not first. -/
theorem department_mapping_counterexample :
    department_mapping [("Transport", "Infrastructure")]
        [("Transport", 100), ("Parks", 50)] [("Infrastructure", 80)]
      = [⟨"Transport", 100, "Infrastructure", 80, "Direct", 20⟩] ∧
    (∀ r ∈ department_mapping [("Transport", "Infrastructure")]
        [("Transport", 100), ("Parks", 50)] [("Infrastructure", 80)],
      r.hccGroup ≠ "Parks") ∧
    department_mapping [("A", "B"), ("C", "D")]
        [("A", 100), ("C", 10)] []
      = [⟨"C", 10, "D", 0, "Direct", 10⟩, ⟨"A", 100, "B", 0, "Direct", 100⟩] := by
  refine ⟨by decide, by decide, by decide⟩

/-- C4 amended: the report is the ASCENDING (matchQuality, staffDifference)
sort of one record per mapping-table pair (so worst mismatches appear last)
plus one record per unmapped WCC group, whose matchQuality is 'WCC Only'
(not None) with HCC staff forced to 0; HCC-only groups absent from the
mapping table yield no record at all. -/
theorem department_mapping_amended (m : List (String × String))
    (h w : List (String × Int)) :
    (department_mapping m h w).Sorted rowLE ∧
    List.Perm (department_mapping m h w) (baseRows m h w ++ wccOnlyRows m w) ∧
    (baseRows m h w).length = m.length ∧
    (∀ r ∈ wccOnlyRows m w, r.matchQuality = "WCC Only" ∧ r.hccStaff = 0) ∧
    (∀ r ∈ department_mapping m h w,
      r.hccGroup = "No Equivalent" ∨ ∃ p ∈ m, r.hccGroup = p.1) := by
  refine ⟨List.sorted_insertionSort _ _, List.perm_insertionSort _ _,
    List.length_map _ _, ?_, ?_⟩
  · intro r hr
    rw [wccOnlyRows, List.mem_map] at hr
    obtain ⟨q, _, rfl⟩ := hr
    exact ⟨rfl, rfl⟩
  · intro r hr
    have hr' : r ∈ baseRows m h w ++ wccOnlyRows m w :=
      (List.perm_insertionSort rowLE _).subset hr
    rw [List.mem_append] at hr'
    rcases hr' with hr' | hr'
    · rw [baseRows, List.mem_map] at hr'
      obtain ⟨p, hp, rfl⟩ := hr'
      exact Or.inr ⟨p, hp, rfl⟩
    · rw [wccOnlyRows, List.mem_map] at hr'
      obtain ⟨q, _, rfl⟩ := hr'
      exact Or.inl rfl

/-- Witness for C4 on the spec's §8 scenario inputs. -/
theorem department_mapping_amended_witness :
    (department_mapping [("Transport", "Infrastructure")]
        [("Transport", 100), ("Parks", 50)] [("Infrastructure", 80)]).Sorted rowLE ∧
    (baseRows [("Transport", "Infrastructure")]
        [("Transport", 100), ("Parks", 50)] [("Infrastructure", 80)]).length = 1 :=
  ⟨(department_mapping_amended _ _ _).1, (department_mapping_amended
    [("Transport", "Infrastructure")] [("Transport", 100), ("Parks", 50)]
    [("Infrastructure", 80)]).2.2.1⟩

/-! ## Schema Normalizer: the star-schema merges

Embeds `merged_data` of mutlicouncil-staff/app.py (lines 708-731, all
`how='left'`, with the `LocationName = 'Wellington City'` fallback when the
pay-locations table is empty), `merged_data` of mywcc-staff/app.py
(lines 283-294, all left joins, locations always merged), and the inner
(default-`how`) merges of `department_mapping`
(mutlicouncil-staff/app.py, lines 2393-2399) used for its staff totals.
Dimension tables have unique surrogate ids, so a pandas merge is an
association-list lookup; a failed lookup yields null (`none`) fields in a
left join and drops the row in an inner join. -/

/-- A staff-assignments fact row. -/
structure FactRow where
  unitId : ℕ
  titleId : ℕ
  locationId : ℕ
  staffCount : ℤ
deriving DecidableEq

/-- A row of the left-joined unified frame; `none` models pandas NaN from a
failed dimension lookup. -/
structure MergedRow where
  fact : FactRow
  unitName : Option String
  groupId : Option ℕ
  groupName : Option String
  jobTitle : Option String
  locationName : Option String
deriving DecidableEq

/-- One fact row left-joined against the four dimension tables
(`units : UnitID → (UnitName, GroupID)`, the rest `id → name`), with the
multicouncil fallback location when the locations table is empty. -/
def mergeRowWcc (units : List (ℕ × String × ℕ)) (groups titles locs : List (ℕ × String))
    (f : FactRow) : MergedRow :=
  let u := units.lookup f.unitId
  let gid := u.map Prod.snd
  { fact := f
    unitName := u.map Prod.fst
    groupId := gid
    groupName := gid.bind fun g => groups.lookup g
    jobTitle := titles.lookup f.titleId
    locationName :=
      if locs.isEmpty then some "Wellington City" else locs.lookup f.locationId }

/-- mutlicouncil-staff `merged_data` (WCC branch): all joins `how='left'`. -/
def merged_data_wcc (facts : List FactRow) (units : List (ℕ × String × ℕ))
    (groups titles locs : List (ℕ × String)) : List MergedRow :=
  facts.map (mergeRowWcc units groups titles locs)

/-- mywcc-staff `merged_data`: identical left joins, the locations table
always merged (no empty-table fallback). -/
def mergeRowMywcc (units : List (ℕ × String × ℕ)) (groups titles locs : List (ℕ × String))
    (f : FactRow) : MergedRow :=
  let u := units.lookup f.unitId
  let gid := u.map Prod.snd
  { fact := f
    unitName := u.map Prod.fst
    groupId := gid
    groupName := gid.bind fun g => groups.lookup g
    jobTitle := titles.lookup f.titleId
    locationName := locs.lookup f.locationId }

def merged_data_mywcc (facts : List FactRow) (units : List (ℕ × String × ℕ))
    (groups titles locs : List (ℕ × String)) : List MergedRow :=
  facts.map (mergeRowMywcc units groups titles locs)

/-- The group name a fact row resolves to through units→groups. -/
def dimLookup (units : List (ℕ × String × ℕ)) (groups : List (ℕ × String))
    (f : FactRow) : Option String :=
  (units.lookup f.unitId).bind fun u => groups.lookup u.2

/-- `department_mapping`'s staff-count merge:
`staff_assignments().merge(business_units, on='UnitID').merge(business_groups, on='GroupID')`
with default `how='inner'` — rows whose dimension lookup fails are dropped. -/
def dm_inner_merge (facts : List FactRow) (units : List (ℕ × String × ℕ))
    (groups : List (ℕ × String)) : List (FactRow × String) :=
  facts.filterMap fun f => (dimLookup units groups f).map fun g => (f, g)

/-- Total staff counted by the department-mapping report's merge. -/
def dm_total_staff (facts : List FactRow) (units : List (ℕ × String × ℕ))
    (groups : List (ℕ × String)) : ℤ :=
  ((dm_inner_merge facts units groups).map fun p => p.1.staffCount).sum

/-- C5 counterexample: facts `[⟨1,1,1,10⟩, ⟨2,1,1,5⟩]` with only unit 1 in
the dimension table.  `merged_data` keeps both rows (the second with null
dimension fields) totalling 15 staff, but the department-mapping report's
inner merge counts only 10: the left-join semantics is NOT preserved there. -/
theorem merge_semantics_counterexample :
    (merged_data_wcc [⟨1, 1, 1, 10⟩, ⟨2, 1, 1, 5⟩]
        [(1, ("U1", 1))] [(1, "G")] [(1, "T")] [(1, "L")]).length = 2 ∧
    (mergeRowWcc [(1, ("U1", 1))] [(1, "G")] [(1, "T")] [(1, "L")]
        ⟨2, 1, 1, 5⟩).unitName = none ∧
    (mergeRowWcc [(1, ("U1", 1))] [(1, "G")] [(1, "T")] [(1, "L")]
        ⟨2, 1, 1, 5⟩).groupName = none ∧
    ((merged_data_wcc [⟨1, 1, 1, 10⟩, ⟨2, 1, 1, 5⟩]
        [(1, ("U1", 1))] [(1, "G")] [(1, "T")] [(1, "L")]).map
      fun r => r.fact.staffCount).sum = 15 ∧
    dm_total_staff [⟨1, 1, 1, 10⟩, ⟨2, 1, 1, 5⟩] [(1, ("U1", 1))] [(1, "G")] = 10 := by
  refine ⟨by decide, by decide, by decide, by decide, by decide⟩

/-- C5 amended: `merged_data` (both apps) preserves every fact row exactly
once, rendering failed lookups as null fields and keeping the staff total;
but the department-mapping staff totals use inner joins, so a fact row whose
unit→group lookup fails is dropped from them entirely. -/
theorem merge_semantics_amended (facts : List FactRow)
    (units : List (ℕ × String × ℕ)) (groups titles locs : List (ℕ × String)) :
    (merged_data_wcc facts units groups titles locs).length = facts.length ∧
    (merged_data_mywcc facts units groups titles locs).length = facts.length ∧
    (∀ f ∈ facts,
      mergeRowWcc units groups titles locs f ∈ merged_data_wcc facts units groups titles locs ∧
      (units.lookup f.unitId = none →
        (mergeRowWcc units groups titles locs f).unitName = none ∧
        (mergeRowWcc units groups titles locs f).groupName = none)) ∧
    ((merged_data_wcc facts units groups titles locs).map
      fun r => r.fact.staffCount).sum = (facts.map fun f => f.staffCount).sum ∧
    (dm_inner_merge facts units groups).length
      = (facts.filter fun f => (dimLookup units groups f).isSome).length ∧
    (∀ f ∈ facts, dimLookup units groups f = none →
      f ∉ (dm_inner_merge facts units groups).map Prod.fst) := by
  refine ⟨List.length_map _ _, List.length_map _ _, ?_, ?_, ?_, ?_⟩
  · intro f hf
    refine ⟨List.mem_map_of_mem _ hf, fun hnone => ?_⟩
    constructor <;> simp [mergeRowWcc, hnone]
  · rw [merged_data_wcc, List.map_map]
    rfl
  · induction facts with
    | nil => rfl
    | cons f t ih =>
      rcases h : dimLookup units groups f with _ | g
      · have hstep : dm_inner_merge (f :: t) units groups
            = dm_inner_merge t units groups := by
          simp [dm_inner_merge, List.filterMap_cons, h]
        have hstep2 : (f :: t).filter (fun x => (dimLookup units groups x).isSome)
            = t.filter (fun x => (dimLookup units groups x).isSome) := by
          simp [List.filter_cons, h]
        rw [hstep, hstep2]
        exact ih
      · have hstep : dm_inner_merge (f :: t) units groups
            = (f, g) :: dm_inner_merge t units groups := by
          simp [dm_inner_merge, List.filterMap_cons, h]
        have hstep2 : (f :: t).filter (fun x => (dimLookup units groups x).isSome)
            = f :: t.filter (fun x => (dimLookup units groups x).isSome) := by
          simp [List.filter_cons, h]
        rw [hstep, hstep2, List.length_cons, List.length_cons, ih]
  · intro f _ hnone hmem
    rw [List.mem_map] at hmem
    obtain ⟨p, hp, hpf⟩ := hmem
    rw [dm_inner_merge, List.mem_filterMap] at hp
    obtain ⟨f', _, hf'⟩ := hp
    rcases h : dimLookup units groups f' with _ | g
    · rw [h] at hf'
      simp at hf'
    · rw [h] at hf'
      have hpeq : (f', g) = p := Option.some.inj hf'
      have hf1 : f' = p.1 := congrArg Prod.fst hpeq
      rw [hpf] at hf1
      rw [hf1] at h
      rw [hnone] at h
      exact Option.noConfusion h

/-- Witness for C5 at the counterexample's concrete inputs. -/
theorem merge_semantics_amended_witness :
    (merged_data_wcc [⟨1, 1, 1, 10⟩, ⟨2, 1, 1, 5⟩]
        [(1, ("U1", 1))] [(1, "G")] [(1, "T")] [(1, "L")]).length = 2 ∧
    ((mergeRowWcc [(1, ("U1", 1))] [(1, "G")] [(1, "T")] [(1, "L")] ⟨2, 1, 1, 5⟩).unitName
      = none) := by
  have h := merge_semantics_amended [⟨1, 1, 1, 10⟩, ⟨2, 1, 1, 5⟩]
    [(1, ("U1", 1))] [(1, "G")] [(1, "T")] [(1, "L")]
  exact ⟨h.1, (h.2.2.1 ⟨2, 1, 1, 5⟩ (by decide)).2 (by decide) |>.1⟩

/-! ## Taxonomy Mapper: fuzzy job-title matching

Embeds the similarity loop of `job_overlap`
(mutlicouncil-staff/app.py, lines 2296-2309):

```python
for hcc_title in list(hcc_only)[:50]:  # Sample for performance
    best_match = None
    best_score = 0
    for wcc_title in list(wcc_only)[:50]:
        score = SequenceMatcher(None, hcc_title, wcc_title).ratio()
        if score > best_score:
            best_score = score
            best_match = wcc_title
    if best_score > 0.8:  # High similarity
        similarity_scores.append(best_score)
```

Titles were already lowercased (lines 2288-2289).  `SequenceMatcher.ratio`
is Ratcliff–Obershelp: recursively sum the longest matching blocks (the
longest block, ties broken by earliest start in `a` then earliest in `b`)
and return `2·M/(len a + len b)`.  The inputs here are shorter than 200
characters, so difflib's autojunk heuristic never activates and no junk set
exists. -/

/-- Length of the common prefix of two character lists. -/
def runLen : List Char → List Char → ℕ
  | a :: as, b :: bs => if a = b then runLen as bs + 1 else 0
  | _, _ => 0

/-- `find_longest_match`: the longest common block `(i, j, k)`, preferring
the earliest start in `a`, then the earliest in `b` (strict improvement over
an `(0,0,0)` accumulator realises exactly that tie rule). -/
def bestBlock (a b : List Char) : ℕ × ℕ × ℕ :=
  (List.range a.length).foldl (fun best i =>
    (List.range b.length).foldl (fun best j =>
      let k := runLen (a.drop i) (b.drop j)
      if best.2.2 < k then (i, j, k) else best) best) (0, 0, 0)

/-- Total matched characters of `get_matching_blocks`: recurse on both sides
of the longest block.  `fuel` only bounds the recursion; `len a + len b`
always suffices. -/
def matchTotal : ℕ → List Char → List Char → ℕ
  | 0, _, _ => 0
  | fuel + 1, a, b =>
    let t := bestBlock a b
    if t.2.2 = 0 then 0
    else t.2.2 + matchTotal fuel (a.take t.1) (b.take t.2.1)
      + matchTotal fuel (a.drop (t.1 + t.2.2)) (b.drop (t.2.1 + t.2.2))

/-- `SequenceMatcher(None, a, b).ratio() = 2·M/T` (and 1.0 when `T = 0`). -/
def ratio (a b : String) : ℚ :=
  if a.toList.length + b.toList.length = 0 then 1
  else 2 * (matchTotal (a.toList.length + b.toList.length) a.toList b.toList : ℚ)
    / ((a.toList.length + b.toList.length : ℕ) : ℚ)

/-- The inner `for wcc_title in list(wcc_only)[:50]` loop: fold keeping the
strictly better score, so the FIRST candidate in iteration order wins ties. -/
def bestCandidate (query : String) (cands : List String) : Option String × ℚ :=
  cands.foldl (fun best c =>
    if best.2 < ratio query c then (some c, ratio query c) else best) (none, 0)

/-- The `similarity_scores` list: first 50 unmatched titles on each side,
scores kept only when strictly above 0.8. -/
def similarityScores (hccOnly wccOnly : List String) : List ℚ :=
  (hccOnly.take 50).filterMap fun h =>
    if 8 / 10 < (bestCandidate h (wccOnly.take 50)).2
    then some (bestCandidate h (wccOnly.take 50)).2 else none

set_option maxRecDepth 8000 in
theorem matchTotal_abcdez : matchTotal 12 "abcdex".toList "abcdez".toList = 5 := by
  decide

set_option maxRecDepth 8000 in
theorem matchTotal_abcdey : matchTotal 12 "abcdex".toList "abcdey".toList = 5 := by
  decide

theorem ratio_abcdez : ratio "abcdex" "abcdez" = 5 / 6 := by
  have hlen : "abcdex".toList.length + "abcdez".toList.length = 12 := by decide
  rw [ratio, hlen, if_neg (by norm_num), matchTotal_abcdez]
  norm_num

theorem ratio_abcdey : ratio "abcdex" "abcdey" = 5 / 6 := by
  have hlen : "abcdex".toList.length + "abcdey".toList.length = 12 := by decide
  rw [ratio, hlen, if_neg (by norm_num), matchTotal_abcdey]
  norm_num

/-- C7 counterexample: the candidates "abcdez" and "abcdey" both score
`5/6 > 0.8` against the query "abcdex"; the matcher keeps "abcdez" — the
first in iteration order — although "abcdey" is lexicographically first, so
ties are NOT broken lexicographically. -/
theorem fuzzy_matcher_counterexample :
    bestCandidate "abcdex" ["abcdez", "abcdey"] = (some "abcdez", 5 / 6) ∧
    ratio "abcdex" "abcdez" = ratio "abcdex" "abcdey" ∧
    "abcdey".toList < "abcdez".toList := by
  refine ⟨?_, by rw [ratio_abcdez, ratio_abcdey], by decide⟩
  simp only [bestCandidate, List.foldl_cons, List.foldl_nil, ratio_abcdez,
    ratio_abcdey]
  norm_num

/-- C7 amended: the matcher caps both vocabularies to their first 50 names
(it does not scan every candidate), returns the maximal ratio over the
considered candidates, keeps the FIRST candidate in iteration order on ties
(not the lexicographically first), and records a similarity only when the
best score is strictly above 0.8; no per-name matchQuality or zero-score
record is produced. -/
theorem fuzzy_matcher_amended :
    (∀ hccOnly wccOnly : List String,
      similarityScores hccOnly wccOnly
        = similarityScores (hccOnly.take 50) (wccOnly.take 50)) ∧
    (∀ (q : String) (cands : List String),
      (bestCandidate q cands).2 = (cands.map (ratio q)).foldl max 0) ∧
    (∀ (hccOnly wccOnly : List String) (s : ℚ),
      s ∈ similarityScores hccOnly wccOnly → 8 / 10 < s) ∧
    (∀ q c₁ c₂ : String, ratio q c₁ = ratio q c₂ → 0 < ratio q c₁ →
      (bestCandidate q [c₁, c₂]).1 = some c₁) := by
  refine ⟨?_, ?_, ?_, ?_⟩
  · intro hccOnly wccOnly
    simp [similarityScores, List.take_take]
  · intro q cands
    suffices h : ∀ init : Option String × ℚ,
        (cands.foldl (fun best c =>
          if best.2 < ratio q c then (some c, ratio q c) else best) init).2
          = (cands.map (ratio q)).foldl max init.2 by
      exact h (none, 0)
    induction cands with
    | nil => intro init; rfl
    | cons c t ih =>
      intro init
      rw [List.foldl_cons, List.map_cons, List.foldl_cons, ih]
      congr 1
      by_cases h : init.2 < ratio q c
      · rw [if_pos h]
        exact (max_eq_right h.le).symm
      · rw [if_neg h]
        exact (max_eq_left (le_of_not_lt h)).symm
  · intro hccOnly wccOnly s hs
    rw [similarityScores, List.mem_filterMap] at hs
    obtain ⟨h, _, hh⟩ := hs
    by_cases hc : 8 / 10 < (bestCandidate h (wccOnly.take 50)).2
    · rw [if_pos hc] at hh
      rw [← Option.some.inj hh]
      exact hc
    · rw [if_neg hc] at hh
      exact absurd hh (Option.noConfusion)
  · intro q c₁ c₂ heq hpos
    rw [bestCandidate, List.foldl_cons, List.foldl_cons, List.foldl_nil]
    rw [if_pos hpos]
    rw [if_neg (by rw [← heq]; exact lt_irrefl _)]

/-- Witness for C7's tie-break clause at the counterexample's strings. -/
theorem fuzzy_matcher_amended_witness :
    (bestCandidate "abcdex" ["abcdez", "abcdey"]).1 = some "abcdez" :=
  fuzzy_matcher_amended.2.2.2 "abcdex" "abcdez" "abcdey"
    (by rw [ratio_abcdez, ratio_abcdey]) (by rw [ratio_abcdez]; norm_num)

/-! ## HCC positions dashboard: the 'No Manager' placeholder

Embeds, from myhcc-staff/app.py: the load-time preparation (lines 12-15,
`fillna('No Manager').str.strip()` on the manager column, `.str.strip()` on
the others), the span-of-control analysis (lines 312-315: group by manager,
drop the 'No Manager' row, sort descending, head(top_n); lines 270-272 are
the same with head(15)), and the summary statistics (lines 365-373: filter
out 'No Manager', then count / mean / max / min of the group sizes).
Filtering rows before grouping and dropping the placeholder group after
grouping agree, since grouping is by the same key.  `pandas.groupby` sorts
keys; key order is irrelevant to what is proved, so groups are listed in
first-appearance order. -/

/-- Python `str.strip()`: drop whitespace from both ends. -/
def pyStrip (s : String) : String :=
  ⟨(((s.toList.dropWhile Char.isWhitespace).reverse.dropWhile
      Char.isWhitespace).reverse)⟩

/-- A raw CSV row; `managerTitle = none` is a missing 'Manager Job Title'. -/
structure HccRawRow where
  jobTitle : String
  group : String
  division : String
  managerTitle : Option String
deriving DecidableEq

/-- A prepared row after the load-time cleaning. -/
structure HccRow where
  jobTitle : String
  group : String
  division : String
  manager : String
deriving DecidableEq

/-- One row of `df['...'].str.strip()` plus
`df['Manager Job Title'].fillna('No Manager').str.strip()`. -/
def loadRow (r : HccRawRow) : HccRow :=
  ⟨pyStrip r.jobTitle, pyStrip r.group, pyStrip r.division,
    pyStrip (r.managerTitle.getD "No Manager")⟩

/-- The module-level `df` after preparation. -/
def load_hcc (rows : List HccRawRow) : List HccRow := rows.map loadRow

/-- `groupby('Manager Job Title').size()`. -/
def managerCounts (rows : List HccRow) : List (String × ℕ) :=
  ((rows.map fun r => r.manager).dedup).map fun m =>
    (m, (rows.map fun r => r.manager).count m)

/-- The span-of-control table after dropping the placeholder:
`manager_counts[manager_counts['Manager Job Title'] != 'No Manager']`. -/
def manager_span (rows : List HccRow) : List (String × ℕ) :=
  (managerCounts rows).filter fun p => p.1 != "No Manager"

/-- `sort_values('Span', ascending=False).head(n)` (analysis chart top-n,
hierarchy chart top-15). -/
def top_managers (n : ℕ) (rows : List HccRow) : List (String × ℕ) :=
  (List.insertionSort (fun p q : String × ℕ => q.2 ≤ p.2)
    (manager_span rows)).take n

/-- `analysis_summary`'s manager statistics: `none` models the
"No manager data available" branch, else (count, mean, max?, min?) of the
placeholder-free spans. -/
def span_stats (rows : List HccRow) : Option (ℕ × ℚ × Option ℕ × Option ℕ) :=
  if (manager_span rows).isEmpty then none
  else some ((manager_span rows).length,
    ((manager_span rows).map fun p => (p.2 : ℚ)).sum / ((manager_span rows).length : ℚ),
    ((manager_span rows).map fun p => p.2).maximum?,
    ((manager_span rows).map fun p => p.2).minimum?)

/-- C10: a missing 'Manager Job Title' is replaced by 'No Manager' at load
time, and every span-of-control artefact — the span table feeding the
count/mean/max/min statistics and the top-managers rankings — excludes that
placeholder; if no row has a real manager, the statistics report no data. -/
theorem no_manager_placeholder_excluded (rows : List HccRawRow) :
    (∀ r ∈ rows, r.managerTitle = none → (loadRow r).manager = "No Manager") ∧
    (∀ p ∈ manager_span (load_hcc rows), p.1 ≠ "No Manager") ∧
    (∀ n : ℕ, ∀ p ∈ top_managers n (load_hcc rows), p.1 ≠ "No Manager") ∧
    ((∀ r ∈ rows, r.managerTitle = none) → span_stats (load_hcc rows) = none) := by
  have hspan : ∀ p ∈ manager_span (load_hcc rows), p.1 ≠ "No Manager" := by
    intro p hp
    rw [manager_span, List.mem_filter] at hp
    exact ne_of_apply_ne id (by simpa using hp.2)
  refine ⟨?_, hspan, ?_, ?_⟩
  · intro r _ h
    rw [loadRow, h]
    rfl
  · intro n p hp
    have hp' : p ∈ manager_span (load_hcc rows) :=
      (List.perm_insertionSort _ _).subset (List.take_subset _ _ hp)
    exact hspan p hp'
  · intro hall
    have hempty : manager_span (load_hcc rows) = [] := by
      rw [manager_span, List.filter_eq_nil]
      intro p hp
      rw [managerCounts, List.mem_map] at hp
      obtain ⟨m, hm, rfl⟩ := hp
      have hm' : m ∈ (load_hcc rows).map fun r => r.manager :=
        List.mem_dedup.1 hm
      rw [List.mem_map] at hm'
      obtain ⟨r', hr', rfl⟩ := hm'
      rw [load_hcc, List.mem_map] at hr'
      obtain ⟨r, hr, rfl⟩ := hr'
      have : (loadRow r).manager = "No Manager" := by
        rw [loadRow, hall r hr]
        rfl
      simp [this]
    rw [span_stats, hempty]
    rfl

/-- Witness for C10 at a concrete two-row dataset (one missing manager, one
real manager). -/
theorem no_manager_placeholder_excluded_witness :
    (loadRow ⟨"Chief Executive", "G", "D", none⟩).manager = "No Manager" ∧
    (∀ p ∈ manager_span (load_hcc
        [⟨"Chief Executive", "G", "D", none⟩,
         ⟨"Analyst", "G", "D", some "Chief Executive"⟩]),
      p.1 ≠ "No Manager") := by
  have h := no_manager_placeholder_excluded
    [⟨"Chief Executive", "G", "D", none⟩,
     ⟨"Analyst", "G", "D", some "Chief Executive"⟩]
  exact ⟨h.1 ⟨"Chief Executive", "G", "D", none⟩ (by simp) rfl, h.2.1⟩

end ShinyApps
